import Mathlib

/-!
Shallow embedding of `app.py` (streamlit-newsletter): the content repository
(`get_available_versions`, `load_content`) and the CSV-backed feedback store
(`save_feedback`, `load_feedback`, CSV export).  File-system effects are made
explicit by passing states; the wall clock of `datetime.now()` is passed as an
explicit `now : Nat` (seconds, matching the second-precision format string).
-/

namespace Newsletter

/-- A file-system path, modelled as the directory part plus the base name
(`os.path.join dir base`); `os.path.dirname` of such a path is `dir`. -/
structure FsPath where
  dir : String
  base : String
deriving DecidableEq, Repr

/-- One feedback row, with the four columns written by `save_feedback`:
`Item`, `Rating`, `Comment`, `Submitted At`.  The timestamp is the clock
value at insertion time (the Python code formats `datetime.now()` to second
precision). -/
structure Row where
  item : String
  rating : String
  comment : String
  submittedAt : Nat
deriving DecidableEq, Repr

/-- Python `str.strip()` with no argument: drop leading and trailing
whitespace characters. -/
def pyStrip (s : String) : String :=
  ⟨((s.data.dropWhile Char.isWhitespace).reverse.dropWhile Char.isWhitespace).reverse⟩

/-- Python truthiness of an optional string (`None` and `""` are falsy). -/
def strTruthy : Option String → Bool
  | none => false
  | some s => !s.isEmpty

/-- The expression `rating if rating else ""` from `save_feedback`. -/
def ratingValue (rating : Option String) : String :=
  match rating with
  | none => ""
  | some r => if r = "" then "" else r

/-- The feedback side of the file system: an association of feedback-file
paths to the list of rows stored in each CSV file (in file order); a path
absent from the list is a file that does not exist (`os.path.isfile` false). -/
abbrev FeedbackFS := List (FsPath × List Row)

/-- Look a file up by path (`os.path.isfile` + `pd.read_csv`). -/
def lookupFile (fs : FeedbackFS) (p : FsPath) : Option (List Row) :=
  match fs with
  | [] => none
  | (q, rows) :: rest => if q = p then some rows else lookupFile rest p

/-- Write a file (`DataFrame.to_csv`): overwrite the rows at `p`, creating
the file when absent. -/
def setFile (fs : FeedbackFS) (p : FsPath) (rows : List Row) : FeedbackFS :=
  match fs with
  | [] => [(p, rows)]
  | (q, old) :: rest =>
    if q = p then (p, rows) :: rest else (q, old) :: setFile rest p rows

/-- Model of `get_feedback_path`: `os.path.join(week_folder, "feedback.csv")`. -/
def get_feedback_path (week_folder : String) : FsPath :=
  ⟨week_folder, "feedback.csv"⟩

/-- Result of `save_feedback`, as named by the spec contract: `Ack` for an
insertion, `Skipped` for a discarded empty comment (the Python function
returns early in that case). -/
inductive SaveResult where
  | ack
  | skipped
deriving DecidableEq, Repr

/-- Model of `save_feedback(item_title, feedback, rating, week_folder)`: skip when the
stripped comment is empty; otherwise build the new row and append it to the
existing CSV file (or create the file with just that row), writing the file
back.  `rating` is `Option String` so that Python `None` is representable;
`now` is the explicit clock. -/
def save_feedback (item_title feedback : String) (rating : Option String)
    (week_folder : String) (now : Nat) (fs : FeedbackFS) :
    SaveResult × FeedbackFS :=
  if pyStrip feedback = "" then (.skipped, fs)
  else
    let feedback_path := get_feedback_path week_folder
    let new_entry : Row :=
      { item := item_title
        rating := ratingValue rating
        comment := pyStrip feedback
        submittedAt := now }
    let updated_rows :=
      match lookupFile fs feedback_path with
      | some existing => existing ++ [new_entry]
      | none => [new_entry]
    (.ack, setFile fs feedback_path updated_rows)

/-- Model of `load_feedback(week_folder)`: read the week's CSV file when it exists, an
empty table otherwise. -/
def load_feedback (week_folder : String) (fs : FeedbackFS) : List Row :=
  match lookupFile fs (get_feedback_path week_folder) with
  | some rows => rows
  | none => []

/-- A parsed JSON document, as the dictionary `json.load` returns.  Only the
keys and the string-valued entries are ever inspected by the program, so
values are abstracted to their textual form. -/
abbrev Doc := List (String × String)

/-- Python dictionary read `d.get(k)`. -/
def getKey (d : Doc) (k : String) : Option String :=
  match d with
  | [] => none
  | (k', v) :: rest => if k' = k then some v else getKey rest k

/-- Python dictionary assignment `d[k] = v`: overwrite in place when the key
exists, append otherwise. -/
def setKey (d : Doc) (k v : String) : Doc :=
  match d with
  | [] => [(k, v)]
  | (k', v') :: rest =>
    if k' = k then (k, v) :: rest else (k', v') :: setKey rest k v

/-- A file under the `content_versions` tree: its path, its modification
time (`os.path.getmtime`), and the result of `json.load` on its bytes
(`none` models content that raises on parsing). -/
structure CFile where
  path : FsPath
  mtime : Nat
  parse : Option Doc
deriving DecidableEq, Repr

/-- State of the content directory: whether `content_versions` exists, and
the files `os.walk` finds under it (in walk order). -/
structure ContentState where
  dirExists : Bool
  files : List CFile
deriving Repr

/-- The check `name.lower().endswith(".json")` from `get_available_versions`, written
over the character list of the base name. -/
def isJsonFile (f : CFile) : Bool :=
  List.isSuffixOf ".json".data (f.path.base.data.map Char.toLower)

/-- Sort key of `json_paths.sort(key=getmtime, reverse=True)`: later
modification time first. -/
def mtimeDescRel (a b : CFile) : Prop := b.mtime ≤ a.mtime

instance : DecidableRel mtimeDescRel := fun a b => Nat.decLe b.mtime a.mtime

instance : IsTotal CFile mtimeDescRel :=
  ⟨fun a b => (Nat.le_total a.mtime b.mtime).symm⟩

instance : IsTrans CFile mtimeDescRel :=
  ⟨fun _ _ _ h1 h2 => Nat.le_trans h2 h1⟩

/-- Model of `get_available_versions()`: create the directory when missing, collect the
JSON files found by the walk, and sort them by modification time, most recent
first.  Returns the file records (the Python code returns their paths, in the
same order) together with the updated directory state. -/
def get_available_versions (s : ContentState) : List CFile × ContentState :=
  ((s.files.filter isJsonFile).insertionSort mtimeDescRel,
   { s with dirExists := true })

/-- Look a content file up by its path (`os.path.isfile` + `open`). -/
def findFile (files : List CFile) (p : FsPath) : Option CFile :=
  match files with
  | [] => none
  | f :: rest => if f.path = p then some f else findFile rest p

/-- The warning text `st.warning` shows for an unloadable file (the dynamic
exception text is abstracted away). -/
def warnMsg (p : FsPath) : String :=
  "Could not load " ++ p.dir ++ "/" ++ p.base ++ "."

/-- Model of `load_content(file_path=None)`: pick the given path, or the head of
`get_available_versions()`; return `none` when no file resolves or parsing
fails (issuing a warning in the parse-failure case), otherwise the parsed
dictionary with `"_base_dir"` set to the file's directory.  Result:
(document, warnings emitted, updated directory state). -/
def load_content (file_path : Option FsPath) (s : ContentState) :
    Option Doc × List String × ContentState :=
  let vs :=
    match file_path with
    | some p => (some p, s)
    | none =>
      match get_available_versions s with
      | (v :: _, s1) => (some v.path, s1)
      | ([], s1) => (none, s1)
  match vs.1 with
  | none => (none, [], vs.2)
  | some p =>
    match findFile vs.2.files p with
    | none => (none, [], vs.2)
    | some f =>
      match f.parse with
      | none => (none, [warnMsg p], vs.2)
      | some user_content =>
        (some (setKey user_content "_base_dir" p.dir), [], vs.2)

/-!
CSV export.  `feedback_df.to_csv(index=False)` writes a header row then one
row per entry, fields joined by commas, each row terminated by a newline;
with the default QUOTE_MINIMAL/doublequote settings a field is wrapped in
double quotes exactly when it contains a comma, a double quote, or a line
break, and embedded double quotes are doubled.  A generic CSV parser is
defined alongside to state the round-trip property.
-/

/-- Does pandas QUOTE_MINIMAL quote this field? -/
def needsQuote (s : List Char) : Bool :=
  s.any (fun c => c = ',' || c = '"' || c = '\n' || c = '\r')

/-- Double every double quote inside a field body. -/
def escBody : List Char → List Char
  | [] => []
  | c :: rest =>
    if c = '"' then '"' :: '"' :: escBody rest else c :: escBody rest

/-- Serialize one field: quote and escape it when needed, else emit it raw. -/
def escField (s : List Char) : List Char :=
  if needsQuote s then '"' :: (escBody s ++ ['"']) else s

/-- Serialize one record: fields joined by commas, newline-terminated. -/
def serializeFields : List (List Char) → List Char
  | [] => ['\n']
  | [f] => escField f ++ ['\n']
  | f :: fs => escField f ++ ',' :: serializeFields fs

/-- Serialize a sequence of records. -/
def serializeAll : List (List (List Char)) → List Char
  | [] => []
  | r :: rest => serializeFields r ++ serializeAll rest

/-- The header row `Item,Rating,Comment,Submitted At`. -/
def headerFields : List (List Char) :=
  ["Item".data, "Rating".data, "Comment".data, "Submitted At".data]

/-- The four CSV fields of one feedback row, in column order. -/
def fieldsOfRow (r : Row) : List (List Char) :=
  [r.item.data, r.rating.data, r.comment.data, (toString r.submittedAt).data]

/-- Model of `feedback_df.to_csv(index=False)`: header row followed by one row per
entry. -/
def export_csv (entries : List Row) : String :=
  ⟨serializeAll (headerFields :: entries.map fieldsOfRow)⟩

/-- Parse an unquoted field: read up to the next comma or newline. -/
def parseRaw : List Char → List Char × List Char
  | [] => ([], [])
  | c :: rest =>
    if c = ',' || c = '\n' then ([], c :: rest)
    else
      let p := parseRaw rest
      (c :: p.1, p.2)

/-- Parse the body of a quoted field (the opening quote already consumed):
a doubled quote is a literal quote, a lone quote closes the field. -/
def parseQuoted : List Char → List Char × List Char
  | [] => ([], [])
  | c :: rest =>
    if c = '"' then
      match rest with
      | [] => ([], [])
      | c2 :: rest2 =>
        if c2 = '"' then
          let p := parseQuoted rest2
          ('"' :: p.1, p.2)
        else ([], rest)
    else
      let p := parseQuoted rest
      (c :: p.1, p.2)

/-- Parse one field, quoted or raw. -/
def parseField (l : List Char) : List Char × List Char :=
  match l with
  | [] => ([], [])
  | c :: rest => if c = '"' then parseQuoted rest else parseRaw (c :: rest)

/-- Parse one record: fields separated by commas, ended by a newline or the
end of input.  `fuel` bounds the number of fields read. -/
def parseRecordAux : Nat → List Char → List (List Char) × List Char
  | 0, l => ([], l)
  | fuel + 1, l =>
    let p := parseField l
    match p.2 with
    | [] => ([p.1], [])
    | c :: r2 =>
      if c = ',' then
        let q := parseRecordAux fuel r2
        (p.1 :: q.1, q.2)
      else if c = '\n' then ([p.1], r2)
      else ([p.1], c :: r2)

/-- Parse a sequence of records until the input is exhausted.  `fuel` bounds
the number of records read. -/
def parseCsvAux : Nat → List Char → List (List (List Char))
  | 0, _ => []
  | fuel + 1, l =>
    if l.isEmpty then []
    else
      let p := parseRecordAux l.length l
      p.1 :: parseCsvAux fuel p.2

/-- Parse a whole CSV byte stream into records of fields. -/
def parseCsv (l : List Char) : List (List (List Char)) :=
  parseCsvAux l.length l

/-- Read the `(Item, Rating, Comment)` triple back out of a parsed record. -/
def tripleOfFields (fs : List (List Char)) : String × String × String :=
  (⟨fs.getD 0 []⟩, ⟨fs.getD 1 []⟩, ⟨fs.getD 2 []⟩)

/-!  Concrete fixtures used to instantiate the theorems below. -/

/-- A feedback store for edition folder `"W"` built by two successful appends
at times 1 and 2. -/
def exTwoAppends : FeedbackFS :=
  (save_feedback "b" "second" (some "d") "W" 2
    (save_feedback "a" "first" (some "u") "W" 1 []).2).2

/-- A parsed content document. -/
def exDoc : Doc := [("title", "T")]

/-- A content file for week 44, modified at time 10. -/
def exFileA : CFile :=
  ⟨⟨"content_versions/Week 44", "week 44.json"⟩, 10, some exDoc⟩

/-- A content file for week 43, modified at time 5. -/
def exFileB : CFile :=
  ⟨⟨"content_versions/Week 43", "week 43.json"⟩, 5, some [("title", "S")]⟩

/-- A content file whose bytes do not parse as JSON. -/
def exFileBad : CFile :=
  ⟨⟨"content_versions/Week 42", "week 42.json"⟩, 1, none⟩

/-- A content directory holding the three files above. -/
def exState : ContentState := ⟨true, [exFileB, exFileA, exFileBad]⟩

/-!  Association-list lemmas for the two file-system maps. -/

theorem lookupFile_setFile_self (fs : FeedbackFS) (p : FsPath)
    (rows : List Row) : lookupFile (setFile fs p rows) p = some rows := by
  induction fs with
  | nil => simp [setFile, lookupFile]
  | cons hd tl ih =>
    obtain ⟨q, old⟩ := hd
    by_cases hq : q = p
    · simp [setFile, lookupFile, hq]
    · simp [setFile, lookupFile, hq, ih]

theorem lookupFile_setFile_ne (fs : FeedbackFS) (p q : FsPath)
    (rows : List Row) (h : q ≠ p) :
    lookupFile (setFile fs p rows) q = lookupFile fs q := by
  induction fs with
  | nil => simp [setFile, lookupFile, Ne.symm h]
  | cons hd tl ih =>
    obtain ⟨q', old⟩ := hd
    by_cases hq : q' = p
    · subst hq
      simp [setFile, lookupFile, Ne.symm h]
    · simp [setFile, lookupFile, hq, ih]

theorem getKey_setKey_self (d : Doc) (k v : String) :
    getKey (setKey d k v) k = some v := by
  induction d with
  | nil => simp [setKey, getKey]
  | cons hd tl ih =>
    obtain ⟨k', v'⟩ := hd
    by_cases hk : k' = k
    · simp [setKey, getKey, hk]
    · simp [setKey, getKey, hk, ih]

theorem getKey_setKey_ne (d : Doc) (k k' v : String) (h : k' ≠ k) :
    getKey (setKey d k v) k' = getKey d k' := by
  induction d with
  | nil => simp [setKey, getKey, Ne.symm h]
  | cons hd tl ih =>
    obtain ⟨k0, v0⟩ := hd
    by_cases hk : k0 = k
    · subst hk
      simp [setKey, getKey, Ne.symm h]
    · simp [setKey, getKey, hk, ih]

/-- After a successful append, the week's CSV holds the old rows followed by
the one new row. -/
theorem load_feedback_after_save (item feedback : String)
    (rating : Option String) (wf : String) (now : Nat) (fs : FeedbackFS)
    (h : pyStrip feedback ≠ "") :
    load_feedback wf (save_feedback item feedback rating wf now fs).2
      = load_feedback wf fs
        ++ [⟨item, ratingValue rating, pyStrip feedback, now⟩] := by
  cases hl : lookupFile fs (get_feedback_path wf) with
  | none =>
    simp [save_feedback, load_feedback, h, hl, lookupFile_setFile_self]
  | some existing =>
    simp [save_feedback, load_feedback, h, hl, lookupFile_setFile_self]

/-- C1: for every item title, edition folder and rating, calling
`save_feedback` with an empty or whitespace-only comment returns `Skipped`
and has no side effects: the file-system state is unchanged, so no row is
created, the feedback file is not touched, and the `load_feedback` entry
count for that edition is the same before and after the call. -/
theorem blank_comment_append_skipped_no_side_effects
    (item feedback : String) (rating : Option String) (wf : String)
    (now : Nat) (fs : FeedbackFS) (h : pyStrip feedback = "") :
    save_feedback item feedback rating wf now fs = (.skipped, fs)
    ∧ (load_feedback wf (save_feedback item feedback rating wf now fs).2).length
        = (load_feedback wf fs).length := by
  simp [save_feedback, h]

theorem blank_comment_append_skipped_no_side_effects_witness :
    pyStrip "   " = ""
    ∧ (save_feedback "Item A" "   " (some "up") "Week 44" 7 exTwoAppends
          = (.skipped, exTwoAppends)
       ∧ (load_feedback "Week 44"
            (save_feedback "Item A" "   " (some "up") "Week 44" 7
              exTwoAppends).2).length
          = (load_feedback "Week 44" exTwoAppends).length) :=
  ⟨by decide,
   blank_comment_append_skipped_no_side_effects "Item A" "   " (some "up")
     "Week 44" 7 exTwoAppends (by decide)⟩

/-- C7: a successful append appends exactly one new row at the end of the
edition's feedback file — every row that existed before the call is still
there unchanged (same item, rating, comment, timestamp) — and the feedback
files of all other edition folders are untouched. -/
theorem append_preserves_existing_rows
    (item feedback : String) (rating : Option String) (wf : String)
    (now : Nat) (fs : FeedbackFS) (h : pyStrip feedback ≠ "") :
    load_feedback wf (save_feedback item feedback rating wf now fs).2
      = load_feedback wf fs
        ++ [⟨item, ratingValue rating, pyStrip feedback, now⟩]
    ∧ ∀ wf', wf' ≠ wf →
        load_feedback wf' (save_feedback item feedback rating wf now fs).2
          = load_feedback wf' fs := by
  refine ⟨load_feedback_after_save item feedback rating wf now fs h, ?_⟩
  intro wf' hne
  have hpath : get_feedback_path wf' ≠ get_feedback_path wf := by
    simp only [get_feedback_path, ne_eq, FsPath.mk.injEq]
    exact fun hc => hne hc.1
  cases hl : lookupFile fs (get_feedback_path wf) with
  | none =>
    simp [save_feedback, load_feedback, h, hl,
      lookupFile_setFile_ne _ _ _ _ hpath]
  | some existing =>
    simp [save_feedback, load_feedback, h, hl,
      lookupFile_setFile_ne _ _ _ _ hpath]

theorem append_preserves_existing_rows_witness :
    pyStrip "third" ≠ ""
    ∧ load_feedback "W" (save_feedback "c" "third" (some "u") "W" 3
        exTwoAppends).2
      = load_feedback "W" exTwoAppends ++ [⟨"c", "u", "third", 3⟩]
    ∧ load_feedback "V" (save_feedback "c" "third" (some "u") "W" 3
        exTwoAppends).2
      = load_feedback "V" exTwoAppends := by
  have h := append_preserves_existing_rows "c" "third" (some "u") "W" 3
    exTwoAppends (by decide)
  exact ⟨by decide, by rw [h.1]; decide, h.2 "V" (by decide)⟩

/-- C9: for every comment that is not whitespace-only, the stored row
records the comment with surrounding whitespace removed, and records the
rating as `""` when the given rating is `None` or empty, while any non-empty
rating string is stored verbatim (no up/down validation). -/
theorem append_strips_comment_and_defaults_rating
    (item feedback : String) (rating : Option String) (wf : String)
    (now : Nat) (fs : FeedbackFS) (h : pyStrip feedback ≠ "") :
    load_feedback wf (save_feedback item feedback rating wf now fs).2
      = load_feedback wf fs
        ++ [⟨item, ratingValue rating, pyStrip feedback, now⟩]
    ∧ ((rating = none ∨ rating = some "") → ratingValue rating = "")
    ∧ (∀ r, rating = some r → r ≠ "" → ratingValue rating = r) := by
  refine ⟨load_feedback_after_save item feedback rating wf now fs h, ?_, ?_⟩
  · rintro (rfl | rfl) <;> simp [ratingValue]
  · rintro r rfl hr
    simp [ratingValue, hr]

theorem append_strips_comment_and_defaults_rating_witness :
    pyStrip " nice " ≠ ""
    ∧ load_feedback "W" (save_feedback "a" " nice " (some "up") "W" 4 []).2
        = [⟨"a", "up", "nice", 4⟩]
    ∧ ratingValue (some "up") = "up" := by
  have h := append_strips_comment_and_defaults_rating "a" " nice "
    (some "up") "W" 4 [] (by decide)
  exact ⟨by decide, by rw [h.1]; decide, h.2.2 "up" rfl (by decide)⟩

/-- C3 counterexample: starting from an edition with no stored feedback, a
single successful append of the non-empty comment `" x "` yields one entry
whose stored comment is `"x"`, not the argument `" x "` — so the entry's
fields do not all equal the arguments passed to the append. -/
theorem single_append_comment_not_verbatim_cex :
    (load_feedback "W" (save_feedback "t" " x " (some "up") "W" 5 []).2).map
        Row.comment = ["x"]
    ∧ ("x" : String) ≠ " x " := by
  decide

/-- C3 (amended): starting from an edition with no stored feedback, a single
successful append followed by `load_feedback` on the same edition returns
exactly one entry whose item title equals the argument, whose rating is the
given rating (with `None`/empty recorded as `""`), whose comment is the
argument with leading and trailing whitespace removed, and whose timestamp is
the clock value of the call — hence at or after the call time. -/
theorem single_append_roundtrip
    (item feedback : String) (rating : Option String) (wf : String)
    (now : Nat) (fs : FeedbackFS) (hempty : load_feedback wf fs = [])
    (h : pyStrip feedback ≠ "") :
    load_feedback wf (save_feedback item feedback rating wf now fs).2
      = [⟨item, ratingValue rating, pyStrip feedback, now⟩]
    ∧ ∀ r ∈ load_feedback wf (save_feedback item feedback rating wf now fs).2,
        now ≤ r.submittedAt := by
  have h1 := load_feedback_after_save item feedback rating wf now fs h
  rw [hempty, List.nil_append] at h1
  refine ⟨h1, ?_⟩
  intro r hr
  rw [h1] at hr
  simp only [List.mem_singleton] at hr
  simp [hr]

theorem single_append_roundtrip_witness :
    load_feedback "Week 44" [] = []
    ∧ pyStrip "great work" ≠ ""
    ∧ load_feedback "Week 44"
        (save_feedback "title" "great work" (some "up") "Week 44" 9 []).2
      = [⟨"title", "up", "great work", 9⟩] := by
  have h := single_append_roundtrip "title" "great work" (some "up")
    "Week 44" 9 [] (by decide) (by decide)
  exact ⟨by decide, by decide, by rw [h.1]; decide⟩

/-- C2 counterexample: after appends at times 1 then 2 into edition folder
`"W"`, `load_feedback` returns the rows with timestamps `[1, 2]` — oldest
first — so the sequence is not ordered most recent first (descending by
submission time). -/
theorem load_feedback_not_most_recent_first_cex :
    (load_feedback "W" exTwoAppends).map Row.submittedAt = [1, 2]
    ∧ ¬ ((load_feedback "W" exTwoAppends).map Row.submittedAt).Sorted
        (· ≥ ·) := by
  refine ⟨by decide, ?_⟩
  intro hsort
  have h12 : (load_feedback "W" exTwoAppends).map Row.submittedAt
      = [1, 2] := by decide
  rw [h12] at hsort
  exact absurd (List.rel_of_sorted_cons hsort 2 (by simp)) (by decide)

/-- C2 (amended): `load_feedback` returns all rows stored for the edition in
insertion order — each successful append places its new (most recent) row at
the end, so rows appear oldest first, ascending by submission time when the
clock is monotone — and it returns the empty sequence, not an error, when no
feedback file exists for the edition. -/
theorem load_feedback_insertion_order (wf : String) (fs : FeedbackFS) :
    (lookupFile fs (get_feedback_path wf) = none → load_feedback wf fs = [])
    ∧ (∀ item feedback rating now, pyStrip feedback ≠ "" →
        load_feedback wf (save_feedback item feedback rating wf now fs).2
          = load_feedback wf fs
            ++ [⟨item, ratingValue rating, pyStrip feedback, now⟩])
    ∧ (∀ item feedback rating now, pyStrip feedback ≠ "" →
        ((load_feedback wf fs).map Row.submittedAt).Sorted (· ≤ ·) →
        (∀ r ∈ load_feedback wf fs, r.submittedAt ≤ now) →
        ((load_feedback wf
            (save_feedback item feedback rating wf now fs).2).map
              Row.submittedAt).Sorted (· ≤ ·)) := by
  refine ⟨fun hnone => by simp [load_feedback, hnone], ?_, ?_⟩
  · intro item feedback rating now h
    exact load_feedback_after_save item feedback rating wf now fs h
  · intro item feedback rating now h hsort hbound
    rw [load_feedback_after_save item feedback rating wf now fs h,
      List.map_append]
    rw [List.Sorted, List.pairwise_append]
    refine ⟨hsort, by simp, ?_⟩
    intro a ha b hb
    simp only [List.map_cons, List.map_nil, List.mem_singleton] at hb
    subst hb
    obtain ⟨r, hr, rfl⟩ := List.mem_map.mp ha
    exact hbound r hr

theorem load_feedback_insertion_order_witness :
    load_feedback "W" ([] : FeedbackFS) = []
    ∧ load_feedback "W" (save_feedback "a" "hi" none "W" 1 []).2
        = [⟨"a", "", "hi", 1⟩] := by
  have h := load_feedback_insertion_order "W" []
  refine ⟨h.1 rfl, ?_⟩
  rw [h.2.1 "a" "hi" none 1 (by decide)]
  decide

/-- C4: `load_content` with no argument returns the same document as
`load_content` applied to the head of `get_available_versions` whenever that
list is non-empty, and returns `None` when the list is empty. -/
theorem load_none_eq_load_head (s : ContentState) :
    (∀ v rest, (get_available_versions s).1 = v :: rest →
       (load_content none s).1 = (load_content (some v.path) s).1)
    ∧ ((get_available_versions s).1 = [] → (load_content none s).1 = none) := by
  constructor
  · intro v rest h
    simp only [get_available_versions] at h
    simp only [load_content, get_available_versions, h]
    cases hf : findFile s.files v.path with
    | none => rfl
    | some f => cases hp : f.parse <;> simp [hp]
  · intro h
    simp only [get_available_versions] at h
    simp [load_content, get_available_versions, h]

theorem load_none_eq_load_head_witness :
    (get_available_versions exState).1 = exFileA :: [exFileB, exFileBad]
    ∧ (load_content none exState).1
        = (load_content (some exFileA.path) exState).1 :=
  ⟨by decide,
   (load_none_eq_load_head exState).1 exFileA [exFileB, exFileBad] (by decide)⟩

/-- C5: `get_available_versions` returns the JSON files under the content
root sorted by modification time in strictly decreasing order when the
modification times are distinct; it marks the directory as existing (creating
it when absent) and returns the empty sequence, never failing, when the
directory holds no files. -/
theorem versions_sorted_by_mtime_desc (s : ContentState)
    (hdist : (s.files.filter isJsonFile).Pairwise
        (fun a b => a.mtime ≠ b.mtime)) :
    ((get_available_versions s).1).Pairwise (fun a b => b.mtime < a.mtime)
    ∧ (get_available_versions s).2.dirExists = true
    ∧ (s.files = [] → (get_available_versions s).1 = []) := by
  refine ⟨?_, rfl, fun hnil => by simp [get_available_versions, hnil]⟩
  have hsorted : ((s.files.filter isJsonFile).insertionSort
      mtimeDescRel).Pairwise mtimeDescRel :=
    List.sorted_insertionSort mtimeDescRel (s.files.filter isJsonFile)
  have hperm := List.perm_insertionSort mtimeDescRel
    (s.files.filter isJsonFile)
  have hdist' : ((s.files.filter isJsonFile).insertionSort
      mtimeDescRel).Pairwise (fun a b => a.mtime ≠ b.mtime) :=
    (hperm.pairwise_iff (fun hab => Ne.symm hab)).mpr hdist
  simp only [get_available_versions]
  exact (hdist'.and hsorted).imp
    (fun hab => Nat.lt_of_le_of_ne hab.2 (Ne.symm hab.1))

theorem versions_sorted_by_mtime_desc_witness :
    (exState.files.filter isJsonFile).Pairwise
        (fun a b => a.mtime ≠ b.mtime)
    ∧ ((get_available_versions exState).1).Pairwise
        (fun a b => b.mtime < a.mtime) := by
  have hd : (exState.files.filter isJsonFile).Pairwise
      (fun a b => a.mtime ≠ b.mtime) := by decide
  exact ⟨hd, (versions_sorted_by_mtime_desc exState hd).1⟩

/-- C6: when the referenced file exists but its contents do not parse as
JSON, `load_content` returns `None` and reports the failure only through the
warning list — no exception escapes, the function being total — and the same
`None` result comes back when the referenced file is missing. -/
theorem unparsable_or_missing_returns_none (s : ContentState) (p : FsPath) :
    (∀ f, findFile s.files p = some f → f.parse = none →
       (load_content (some p) s).1 = none
       ∧ (load_content (some p) s).2.1 = [warnMsg p])
    ∧ (findFile s.files p = none → (load_content (some p) s).1 = none) := by
  constructor
  · intro f hf hp
    constructor <;> simp [load_content, hf, hp]
  · intro hf
    simp [load_content, hf]

theorem unparsable_or_missing_returns_none_witness :
    findFile exState.files exFileBad.path = some exFileBad
    ∧ exFileBad.parse = none
    ∧ (load_content (some exFileBad.path) exState).1 = none
    ∧ (load_content (some exFileBad.path) exState).2.1
        = [warnMsg exFileBad.path] := by
  have h := (unparsable_or_missing_returns_none exState exFileBad.path).1
    exFileBad (by decide) rfl
  exact ⟨by decide, rfl, h.1, h.2⟩

/-- C10: whenever `load_content` returns a document, that document carries
the extra key `"_base_dir"` holding the directory of the loaded JSON file,
with all other parsed keys preserved; and feeding that value to
`get_feedback_path` routes the edition's feedback file into that same
directory. -/
theorem loaded_doc_has_base_dir (s : ContentState) :
    (∀ p doc, (load_content (some p) s).1 = some doc →
       getKey doc "_base_dir" = some p.dir
       ∧ (∀ k, k ≠ "_base_dir" → ∀ f u, findFile s.files p = some f →
           f.parse = some u → getKey doc k = getKey u k)
       ∧ (∀ wf, getKey doc "_base_dir" = some wf →
           get_feedback_path wf = ⟨p.dir, "feedback.csv"⟩))
    ∧ (∀ doc v rest, (get_available_versions s).1 = v :: rest →
        (load_content none s).1 = some doc →
        getKey doc "_base_dir" = some v.path.dir) := by
  constructor
  · intro p doc h
    cases hf : findFile s.files p with
    | none => simp [load_content, hf] at h
    | some f =>
      cases hp : f.parse with
      | none => simp [load_content, hf, hp] at h
      | some u =>
        simp only [load_content, hf, hp, Option.some.injEq] at h
        subst h
        refine ⟨getKey_setKey_self u "_base_dir" p.dir, ?_, ?_⟩
        · intro k hk f' u' hf' hu'
          injection hf' with hff
          subst hff
          rw [hp] at hu'
          injection hu' with huu
          subst huu
          exact getKey_setKey_ne u "_base_dir" k p.dir hk
        · intro wf hwf
          rw [getKey_setKey_self u "_base_dir" p.dir,
            Option.some.injEq] at hwf
          rw [get_feedback_path, hwf]
  · intro doc v rest hv h
    simp only [get_available_versions] at hv
    cases hf : findFile s.files v.path with
    | none => simp [load_content, get_available_versions, hv, hf] at h
    | some f =>
      cases hp : f.parse with
      | none => simp [load_content, get_available_versions, hv, hf, hp] at h
      | some u =>
        simp only [load_content, get_available_versions, hv, hf, hp,
          Option.some.injEq] at h
        subst h
        exact getKey_setKey_self u "_base_dir" v.path.dir

theorem loaded_doc_has_base_dir_witness :
    (load_content (some exFileA.path) exState).1
      = some [("title", "T"), ("_base_dir", "content_versions/Week 44")]
    ∧ getKey [("title", "T"), ("_base_dir", "content_versions/Week 44")]
        "_base_dir" = some "content_versions/Week 44"
    ∧ get_feedback_path "content_versions/Week 44"
      = ⟨"content_versions/Week 44", "feedback.csv"⟩ := by
  have h := (loaded_doc_has_base_dir exState).1 exFileA.path
    [("title", "T"), ("_base_dir", "content_versions/Week 44")] (by decide)
  exact ⟨by decide, h.1, h.2.2 "content_versions/Week 44" h.1⟩

/-!  Round-trip lemmas for the CSV serializer and parser. -/

theorem parseRaw_eats_clean (f : List Char) (d : Char) (rest : List Char)
    (hf : ∀ c ∈ f, c ≠ ',' ∧ c ≠ '\n') (hd : d = ',' ∨ d = '\n') :
    parseRaw (f ++ d :: rest) = (f, d :: rest) := by
  induction f with
  | nil => rcases hd with rfl | rfl <;> simp [parseRaw]
  | cons c cs ih =>
    have hc := hf c (by simp)
    have ih' := ih (fun x hx => hf x (by simp [hx]))
    simp [parseRaw, hc.1, hc.2, ih']

theorem parseQuoted_escBody (f : List Char) (rest : List Char)
    (hrest : ∀ r', rest ≠ '"' :: r') :
    parseQuoted (escBody f ++ '"' :: rest) = (f, rest) := by
  induction f with
  | nil =>
    rw [show escBody [] = [] from rfl, List.nil_append, parseQuoted.eq_def]
    cases rest with
    | nil => simp
    | cons c2 r2 =>
      have hc2 : c2 ≠ '"' := fun hc => hrest r2 (by rw [hc])
      simp [hc2]
  | cons c cs ih =>
    by_cases hc : c = '"'
    · subst hc
      have h1 : escBody ('"' :: cs) = '"' :: '"' :: escBody cs := by
        simp [escBody]
      rw [h1, List.cons_append, List.cons_append, parseQuoted.eq_def]
      simp [ih]
    · have h1 : escBody (c :: cs) = c :: escBody cs := by
        simp [escBody, hc]
      rw [h1, List.cons_append, parseQuoted.eq_def]
      simp [hc, ih]

theorem parseField_escField (f : List Char) (d : Char) (rest : List Char)
    (hd : d = ',' ∨ d = '\n') :
    parseField (escField f ++ d :: rest) = (f, d :: rest) := by
  by_cases hq : needsQuote f = true
  · have hdq : d ≠ '"' := by rcases hd with rfl | rfl <;> decide
    have hcons : escField f ++ d :: rest
        = '"' :: (escBody f ++ '"' :: (d :: rest)) := by
      simp [escField, hq]
    rw [hcons]
    simp only [parseField, if_pos rfl]
    exact parseQuoted_escBody f (d :: rest)
      (fun r' hr => hdq (List.head_eq_of_cons_eq hr))
  · have hnoq : ∀ c ∈ f, c ≠ ',' ∧ c ≠ '"' ∧ c ≠ '\n' ∧ c ≠ '\r' := by
      intro c hc
      have h2 : ¬(c = ',' || c = '"' || c = '\n' || c = '\r') = true :=
        fun hb => hq ((List.any_eq_true).mpr ⟨c, hc, hb⟩)
      simp only [Bool.or_eq_true, decide_eq_true_eq, not_or] at h2
      exact ⟨h2.1.1.1, h2.1.1.2, h2.1.2, h2.2⟩
    rw [escField, if_neg hq]
    cases f with
    | nil =>
      have hdq : d ≠ '"' := by rcases hd with rfl | rfl <;> decide
      simp only [List.nil_append, parseField, if_neg hdq]
      rcases hd with rfl | rfl <;> simp [parseRaw]
    | cons c cs =>
      have hc := hnoq c (by simp)
      simp only [List.cons_append, parseField, if_neg hc.2.1]
      rw [← List.cons_append]
      exact parseRaw_eats_clean (c :: cs) d rest
        (fun x hx => ⟨(hnoq x hx).1, (hnoq x hx).2.2.1⟩) hd

theorem serializeFields_ne_nil (fs : List (List Char)) :
    serializeFields fs ≠ [] := by
  match fs with
  | [] => simp [serializeFields]
  | [f] => simp [serializeFields]
  | f :: f2 :: fs2 => simp [serializeFields]

theorem serializeFields_length_ge (fs : List (List Char)) :
    fs.length ≤ (serializeFields fs).length := by
  induction fs with
  | nil => simp [serializeFields]
  | cons f fs ih =>
    cases fs with
    | nil => simp [serializeFields]
    | cons f2 fs2 =>
      simp only [serializeFields, List.length_append, List.length_cons] at ih ⊢
      omega

theorem serializeAll_length_ge (rss : List (List (List Char))) :
    rss.length ≤ (serializeAll rss).length := by
  induction rss with
  | nil => simp [serializeAll]
  | cons r rs ih =>
    have h2 : 1 ≤ (serializeFields r).length := by
      cases hsr : serializeFields r with
      | nil => exact absurd hsr (serializeFields_ne_nil r)
      | cons a l => simp
    simp only [serializeAll, List.length_append, List.length_cons]
    omega

theorem parseRecordAux_serialize (fs : List (List Char)) :
    ∀ fuel rest, fs ≠ [] → fs.length ≤ fuel →
      parseRecordAux fuel (serializeFields fs ++ rest) = (fs, rest) := by
  induction fs with
  | nil => intro fuel rest hne _; exact absurd rfl hne
  | cons f fs ih =>
    intro fuel rest _ hlen
    cases fuel with
    | zero => simp at hlen
    | succ n =>
      cases fs with
      | nil =>
        have hser : serializeFields [f] ++ rest = escField f ++ '\n' :: rest := by
          simp [serializeFields]
        rw [hser]
        simp only [parseRecordAux]
        rw [parseField_escField f '\n' rest (Or.inr rfl)]
        simp
      | cons f2 fs2 =>
        have hser : serializeFields (f :: f2 :: fs2) ++ rest
            = escField f ++ ',' :: (serializeFields (f2 :: fs2) ++ rest) := by
          simp [serializeFields]
        have hlen2 : (f2 :: fs2).length ≤ n := by
          simp only [List.length_cons] at hlen ⊢
          omega
        rw [hser]
        simp only [parseRecordAux]
        rw [parseField_escField f ','
          (serializeFields (f2 :: fs2) ++ rest) (Or.inl rfl)]
        simp [ih n rest (by simp) hlen2]

theorem parseCsvAux_serialize (rss : List (List (List Char))) :
    ∀ fuel, (∀ r ∈ rss, r ≠ []) → rss.length ≤ fuel →
      parseCsvAux fuel (serializeAll rss) = rss := by
  induction rss with
  | nil =>
    intro fuel _ _
    cases fuel <;> simp [serializeAll, parseCsvAux]
  | cons r rs ih =>
    intro fuel hne hlen
    cases fuel with
    | zero => simp at hlen
    | succ n =>
      have hfalse : (serializeFields r ++ serializeAll rs).isEmpty = false := by
        cases hsr : serializeFields r with
        | nil => exact absurd hsr (serializeFields_ne_nil r)
        | cons a l => simp
      have hle : r.length ≤ (serializeFields r ++ serializeAll rs).length := by
        have := serializeFields_length_ge r
        simp only [List.length_append]
        omega
      simp only [serializeAll, parseCsvAux, hfalse]
      rw [parseRecordAux_serialize r
        (serializeFields r ++ serializeAll rs).length (serializeAll rs)
        (hne r (by simp)) hle]
      simp only [Bool.false_eq_true, if_false]
      rw [ih n (fun x hx => hne x (by simp [hx]))
        (by simp only [List.length_cons] at hlen; omega)]

/-- C8: `export_csv` is a pure function of its entries; parsing the exported
bytes back yields the header `Item,Rating,Comment,Submitted At` followed by
exactly the rows of the input, so the multiset of `(item, rating, comment)`
triples is recovered independently of ordering — including entries whose
rating or comment fields are empty strings, and fields needing comma/quote
escaping. -/
theorem export_csv_roundtrip (entries : List Row) :
    parseCsv (export_csv entries).data
      = headerFields :: entries.map fieldsOfRow
    ∧ (((parseCsv (export_csv entries).data).drop 1).map tripleOfFields).Perm
        (entries.map (fun e => (e.item, e.rating, e.comment))) := by
  have hne : ∀ r ∈ headerFields :: entries.map fieldsOfRow, r ≠ [] := by
    intro r hr
    rcases List.mem_cons.mp hr with rfl | hr2
    · simp [headerFields]
    · obtain ⟨e, _, rfl⟩ := List.mem_map.mp hr2
      simp [fieldsOfRow]
  have h1 : parseCsv (export_csv entries).data
      = headerFields :: entries.map fieldsOfRow := by
    have hdata : (export_csv entries).data
        = serializeAll (headerFields :: entries.map fieldsOfRow) := rfl
    rw [hdata, parseCsv]
    exact parseCsvAux_serialize _ _ hne (serializeAll_length_ge _)
  refine ⟨h1, ?_⟩
  rw [h1]
  have h2 : ((headerFields :: entries.map fieldsOfRow).drop 1).map
      tripleOfFields = entries.map (fun e => (e.item, e.rating, e.comment)) := by
    simp only [List.drop_succ_cons, List.drop_zero, List.map_map]
    rfl
  rw [h2]

end Newsletter
